import Mathlib

/-!
Verification of the daily rotation/retention sink of
src/include/spdlog/sinks/daily_file_sink.h.

Time is modelled as integer seconds (log_clock::time_point, time_t).
Filenames (filename_t, std::string) are modelled as List Char.

External collaborators (spec section 6) that are not part of the file under
src/ are modelled from the spec: local-time conversion (to_calendar),
mktime, the string split_by_extension helper, and the directory/delete
primitives.  Each such definition carries a doc comment saying so.
-/

/-! ## Calendar model

Modelled from the spec: local time conversion, section 6, is
to_calendar(timestamp) -> year, month, day, hour, minute, second.
We model it as UTC (a fixed zero offset); the spec accepts the local-time
behaviour of the underlying conversion as external (section 4.2).
The civil-date conversion is the standard proleptic Gregorian calendar,
implemented with exact Euclidean-affine steps (era / century / year of
century / day of year), which agrees with the usual C localtime on every
timestamp. -/

def era_of (n : Int) : Int := n / 146097

def doe_of (n : Int) : Int := n - era_of n * 146097

def cen_of (doe : Int) : Int := (4 * doe + 3) / 146097

def doc_of (doe : Int) : Int := doe - 146097 * cen_of doe / 4

def yc_of (doc : Int) : Int := (4 * doc + 3) / 1461

def doy_of (doc : Int) : Int := doc - 1461 * yc_of doc / 4

def mp_of (doy : Int) : Int := (5 * doy + 2) / 153

def dom_of (doy : Int) : Int := doy - (153 * mp_of doy + 2) / 5 + 1

def m_of (doy : Int) : Int := mp_of doy + (if mp_of doy < 10 then 3 else -9)

/-- Civil (proleptic Gregorian) date of day number z, where day 0 is
1970-01-01; returns (year, month, day) with month in 1..12. -/
def civil_from_days (z : Int) : Int × Int × Int :=
  (100 * cen_of (doe_of (z + 719468)) + yc_of (doc_of (doe_of (z + 719468))) +
      era_of (z + 719468) * 400 +
      (if m_of (doy_of (doc_of (doe_of (z + 719468)))) ≤ 2 then 1 else 0),
    m_of (doy_of (doc_of (doe_of (z + 719468)))),
    dom_of (doy_of (doc_of (doe_of (z + 719468)))))

/-- Day number of a civil (year, month, day), inverse of civil_from_days. -/
def days_from_civil (y0 m d : Int) : Int :=
  (y0 - (if m ≤ 2 then 1 else 0)) / 400 * 146097 +
    ((y0 - (if m ≤ 2 then 1 else 0)) - (y0 - (if m ≤ 2 then 1 else 0)) / 400 * 400) * 365 +
    ((y0 - (if m ≤ 2 then 1 else 0)) - (y0 - (if m ≤ 2 then 1 else 0)) / 400 * 400) / 4 -
    ((y0 - (if m ≤ 2 then 1 else 0)) - (y0 - (if m ≤ 2 then 1 else 0)) / 400 * 400) / 100 +
    ((153 * (m + (if m > 2 then (-3 : Int) else 9)) + 2) / 5 + d - 1) - 719468

theorem doe_bounds (n : Int) : 0 ≤ doe_of n ∧ doe_of n ≤ 146096 := by
  unfold doe_of era_of; omega

theorem cen_bounds (doe : Int) (h : 0 ≤ doe ∧ doe ≤ 146096) :
    0 ≤ cen_of doe ∧ cen_of doe ≤ 3 ∧ 146097 * cen_of doe / 4 = 36524 * cen_of doe := by
  unfold cen_of; omega

theorem doc_bounds (doe : Int) (h : 0 ≤ doe ∧ doe ≤ 146096) :
    0 ≤ doc_of doe ∧ doc_of doe ≤ 36524 := by
  unfold doc_of cen_of; omega

theorem yc_bounds (doc : Int) (h : 0 ≤ doc ∧ doc ≤ 36524) :
    0 ≤ yc_of doc ∧ yc_of doc ≤ 99 ∧
      1461 * yc_of doc / 4 = 365 * yc_of doc + yc_of doc / 4 := by
  unfold yc_of; omega

theorem doy_bounds (doc : Int) (h : 0 ≤ doc ∧ doc ≤ 36524) :
    0 ≤ doy_of doc ∧ doy_of doc ≤ 365 := by
  unfold doy_of yc_of; omega

theorem mp_bounds (doy : Int) (h : 0 ≤ doy ∧ doy ≤ 365) :
    0 ≤ mp_of doy ∧ mp_of doy ≤ 11 := by
  unfold mp_of; omega

theorem m_range (doy : Int) (h : 0 ≤ doy ∧ doy ≤ 365) :
    1 ≤ m_of doy ∧ m_of doy ≤ 12 := by
  have := mp_bounds doy h
  unfold m_of; split_ifs <;> omega

theorem dom_range (doy : Int) (h : 0 ≤ doy ∧ doy ≤ 365) :
    1 ≤ dom_of doy ∧ dom_of doy ≤ 31 := by
  have := mp_bounds doy h
  unfold dom_of mp_of at *; omega

theorem month_inv (doy : Int) (h : 0 ≤ doy ∧ doy ≤ 365) :
    (153 * (m_of doy + (if m_of doy > 2 then (-3 : Int) else 9)) + 2) / 5 + dom_of doy - 1 =
      doy := by
  have := mp_bounds doy h
  unfold m_of dom_of
  split_ifs <;> omega

theorem dfc_decomp (era yoe m d : Int) (hy : 0 ≤ yoe ∧ yoe ≤ 399) :
    days_from_civil (yoe + era * 400 + (if m ≤ 2 then 1 else 0)) m d =
      era * 146097 +
        (yoe * 365 + yoe / 4 - yoe / 100 +
          ((153 * (m + (if m > 2 then (-3 : Int) else 9)) + 2) / 5 + d - 1)) - 719468 := by
  unfold days_from_civil
  split_ifs <;> omega

theorem dys_eq (c yc : Int) (hc : 0 ≤ c ∧ c ≤ 3) (hyc : 0 ≤ yc ∧ yc ≤ 99) :
    (100 * c + yc) * 365 + (100 * c + yc) / 4 - (100 * c + yc) / 100 =
      36524 * c + 365 * yc + yc / 4 := by
  omega

theorem doe_reconstruct (doe : Int) (h : 0 ≤ doe ∧ doe ≤ 146096) :
    36524 * cen_of doe + (365 * yc_of (doc_of doe) + yc_of (doc_of doe) / 4 +
      doy_of (doc_of doe)) = doe := by
  have h1 := cen_bounds doe h
  have h2 := doc_bounds doe h
  have h3 := yc_bounds _ h2
  unfold doy_of doc_of at *
  omega

set_option maxHeartbeats 1600000 in
/-- days_from_civil is a left inverse of civil_from_days: the civil date we
assign to a day number maps back to that day number. -/
theorem days_civil_roundtrip (z : Int) :
    days_from_civil (civil_from_days z).1 (civil_from_days z).2.1
      (civil_from_days z).2.2 = z := by
  have h0 := doe_bounds (z + 719468)
  have h1 := cen_bounds _ h0
  have h2 := doc_bounds _ h0
  have h3 := yc_bounds _ h2
  have h4 := doy_bounds _ h2
  simp only [civil_from_days]
  rw [dfc_decomp _ _ _ _ (by omega)]
  rw [month_inv _ h4]
  have h6 := dys_eq (cen_of (doe_of (z + 719468))) (yc_of (doc_of (doe_of (z + 719468))))
    ⟨h1.1, h1.2.1⟩ ⟨h3.1, h3.2.1⟩
  have h7 := doe_reconstruct _ h0
  unfold era_of doe_of at *
  omega

/-! ## struct tm and the localtime / mktime models -/

/-- The C struct tm fields used by the sink (tm_year is years since 1900,
tm_mon is 0-based). -/
structure Tm where
  tm_sec : Int
  tm_min : Int
  tm_hour : Int
  tm_mday : Int
  tm_mon : Int
  tm_year : Int
  deriving DecidableEq, Repr

/-- Modelled from the spec: to_calendar(timestamp) (section 6), the
spdlog::details::os::localtime collaborator.  Seconds since the epoch to a
broken-down calendar time (UTC model). -/
def localtime (t : Int) : Tm :=
  { tm_sec := t % 86400 % 60
    tm_min := t % 86400 % 3600 / 60
    tm_hour := t % 86400 / 3600
    tm_mday := (civil_from_days (t / 86400)).2.2
    tm_mon := (civil_from_days (t / 86400)).2.1 - 1
    tm_year := (civil_from_days (t / 86400)).1 - 1900 }

/-- Modelled from the spec: the std::mktime collaborator, inverse of the
calendar conversion (UTC model): a broken-down time back to seconds since
the epoch. -/
def mktime (tm : Tm) : Int :=
  days_from_civil (tm.tm_year + 1900) (tm.tm_mon + 1) tm.tm_mday * 86400 +
    tm.tm_hour * 3600 + tm.tm_min * 60 + tm.tm_sec

/-- mktime applied to localtime(t) with the time-of-day fields replaced
lands on the same civil day as t: midnight of t's day plus the requested
time of day. -/
theorem mktime_localtime_set (t rh rm : Int) :
    mktime { localtime t with tm_hour := rh, tm_min := rm, tm_sec := 0 } =
      t / 86400 * 86400 + rh * 3600 + rm * 60 := by
  show days_from_civil ((civil_from_days (t / 86400)).1 - 1900 + 1900)
      ((civil_from_days (t / 86400)).2.1 - 1 + 1) (civil_from_days (t / 86400)).2.2 * 86400 +
      rh * 3600 + rm * 60 + 0 = t / 86400 * 86400 + rh * 3600 + rm * 60
  have h1 : (civil_from_days (t / 86400)).1 - 1900 + 1900 = (civil_from_days (t / 86400)).1 := by
    omega
  have h2 : (civil_from_days (t / 86400)).2.1 - 1 + 1 = (civil_from_days (t / 86400)).2.1 := by
    omega
  rw [h1, h2, days_civil_roundtrip]
  omega

/-! ## Decimal rendering (fmt {:0Nd}) -/

/-- Decimal digit characters, most significant first; structural fuel so
that concrete values reduce in the kernel.  Fuel n + 1 always suffices. -/
def natDigitsAux : Nat → Nat → List Char
  | 0, _ => []
  | fuel + 1, n =>
    if n < 10 then [Char.ofNat (48 + n)]
    else natDigitsAux fuel (n / 10) ++ [Char.ofNat (48 + n % 10)]

/-- Decimal digit characters of n, most significant first. -/
def natDigits (n : Nat) : List Char := natDigitsAux (n + 1) n

/-- Zero-padded decimal rendering of an integer to a minimum width, the
fmt {:0Nd} format: a minus sign counts toward the width and padding zeros
go between the sign and the digits. -/
def padInt (w : Nat) (n : Int) : List Char :=
  if n < 0 then
    '-' :: (List.replicate (w - 1 - (natDigits n.natAbs).length) '0' ++ natDigits n.natAbs)
  else
    List.replicate (w - (natDigits n.natAbs).length) '0' ++ natDigits n.natAbs

example : padInt 4 2024 = ['2','0','2','4'] := by decide
example : padInt 4 50 = ['0','0','5','0'] := by decide
example : padInt 2 7 = ['0','7'] := by decide
example : padInt 4 (-50) = ['-','0','5','0'] := by decide
example : padInt 4 10000 = ['1','0','0','0','0'] := by decide

theorem natDigitsAux_ne_nil (fuel n : Nat) (h : n < fuel) : natDigitsAux fuel n ≠ [] := by
  cases fuel with
  | zero => omega
  | succ f =>
    unfold natDigitsAux
    split <;> simp

theorem natDigitsAux_len_le (fuel : Nat) : ∀ k n : Nat, n < fuel → n < 10 ^ k →
    (natDigitsAux fuel n).length ≤ max k 1 := by
  induction fuel with
  | zero => intro k n h; omega
  | succ f ih =>
    intro k n hf hk
    unfold natDigitsAux
    split
    · simp
    · rename_i h
      have hk1 : 1 ≤ k := by
        by_contra hc
        have hk0 : k = 0 := by omega
        subst hk0
        simp at hk
        omega
      rcases Nat.lt_or_ge k 2 with hk2 | hk2
      · have hke : k = 1 := by omega
        subst hke
        simp at hk
        omega
      · have hx : (10 : Nat) ^ k = 10 ^ (k - 1) * 10 := by
          calc (10 : Nat) ^ k = 10 ^ (k - 1 + 1) := by rw [Nat.sub_add_cancel hk1]
          _ = 10 ^ (k - 1) * 10 := by rw [pow_succ]
        have hd : n / 10 < 10 ^ (k - 1) := by omega
        have hfd : n / 10 < f := by omega
        have hlen := ih (k - 1) (n / 10) hfd hd
        have hmax : max (k - 1) 1 = k - 1 := by omega
        rw [hmax] at hlen
        simp only [List.length_append, List.length_cons, List.length_nil]
        omega

theorem natDigits_ne_nil (n : Nat) : natDigits n ≠ [] :=
  natDigitsAux_ne_nil (n + 1) n (by omega)

theorem natDigits_len_pos (n : Nat) : 1 ≤ (natDigits n).length :=
  List.length_pos.mpr (natDigits_ne_nil n)

theorem natDigits_len_le (k n : Nat) (h : n < 10 ^ k) : (natDigits n).length ≤ max k 1 :=
  natDigitsAux_len_le (n + 1) k n (by omega) h

theorem digitChar_isDigit (d : Nat) (h : d < 10) : (Char.ofNat (48 + d)).isDigit = true := by
  interval_cases d <;> decide

theorem natDigitsAux_isDigit (fuel : Nat) : ∀ n : Nat, n < fuel →
    ∀ c ∈ natDigitsAux fuel n, c.isDigit = true := by
  induction fuel with
  | zero => intro n h; omega
  | succ f ih =>
    intro n hf c hc
    unfold natDigitsAux at hc
    split at hc
    · rename_i h
      simp at hc
      subst hc
      exact digitChar_isDigit n h
    · rename_i h
      rw [List.mem_append] at hc
      rcases hc with hc | hc
      · exact ih (n / 10) (by omega) c hc
      · simp at hc
        subst hc
        exact digitChar_isDigit (n % 10) (Nat.mod_lt _ (by omega))

theorem natDigits_isDigit (n : Nat) : ∀ c ∈ natDigits n, c.isDigit = true :=
  natDigitsAux_isDigit (n + 1) n (by omega)

theorem padInt_length4 (n : Int) (h0 : 0 ≤ n) (h1 : n ≤ 9999) :
    (padInt 4 n).length = 4 := by
  unfold padInt
  rw [if_neg (by omega)]
  have hlt : n.natAbs < 10 ^ 4 := by omega
  have hle := natDigits_len_le 4 n.natAbs hlt
  have hpos := natDigits_len_pos n.natAbs
  simp only [List.length_append, List.length_replicate]
  omega

theorem padInt_length2 (n : Int) (h0 : 0 ≤ n) (h1 : n ≤ 99) :
    (padInt 2 n).length = 2 := by
  unfold padInt
  rw [if_neg (by omega)]
  have hlt : n.natAbs < 10 ^ 2 := by omega
  have hle := natDigits_len_le 2 n.natAbs hlt
  have hpos := natDigits_len_pos n.natAbs
  simp only [List.length_append, List.length_replicate]
  omega

theorem padInt_isDigit (w : Nat) (n : Int) (h0 : 0 ≤ n) :
    ∀ c ∈ padInt w n, c.isDigit = true := by
  unfold padInt
  rw [if_neg (by omega)]
  intro c hc
  rw [List.mem_append] at hc
  rcases hc with hc | hc
  · have := List.eq_of_mem_replicate hc
    subst this
    decide
  · exact natDigits_isDigit _ c hc

/-! ## Filename split and the daily filename calculator -/

def folder_sep : Char := '/'

/-- Modelled from the spec: details::file_helper::split_by_extension (not
under src/): splits at the last dot that follows the last directory
separator; extension empty when no such dot exists (section 4.1). -/
def extIndex (s : List Char) : Option Nat :=
  (s.reverse.findIdx? (fun c => c = '.' || c = folder_sep)).bind
    (fun k => if s.getD (s.length - 1 - k) ' ' = '.' then some (s.length - 1 - k) else none)

def split_by_extension (s : List Char) : List Char × List Char :=
  match extIndex s with
  | some i => (s.take i, s.drop i)
  | none => (s, [])

example : split_by_extension "app.log".data = ("app".data, ".log".data) := by decide
example : split_by_extension "noext".data = ("noext".data, "".data) := by decide
example : split_by_extension "a.d/file".data = ("a.d/file".data, "".data) := by decide
example : split_by_extension "a/b.c/x.log".data = ("a/b.c/x".data, ".log".data) := by decide

theorem split_by_extension_join (s : List Char) :
    (split_by_extension s).1 ++ (split_by_extension s).2 = s := by
  unfold split_by_extension
  cases h : extIndex s with
  | none => simp
  | some i => simp [List.take_append_drop]

theorem reverse_getD (s : List Char) (j : Nat) (hj : j < s.length) :
    s.reverse.getD (s.length - 1 - j) ' ' = s.getD j ' ' := by
  have hr : s.length - 1 - j < s.reverse.length := by
    rw [List.length_reverse]
    omega
  rw [List.getD_eq_getElem s ' ' hj, List.getD_eq_getElem s.reverse ' ' hr]
  rw [List.getElem_reverse]
  congr 1
  omega

theorem extIndex_spec_some (s : List Char) (i : Nat) (h : extIndex s = some i) :
    i < s.length ∧ s.getD i ' ' = '.' ∧
      ∀ j, i < j → j < s.length → s.getD j ' ' ≠ '.' ∧ s.getD j ' ' ≠ folder_sep := by
  unfold extIndex at h
  cases e : s.reverse.findIdx? (fun c => c = '.' || c = folder_sep) with
  | none => rw [e] at h; simp at h
  | some k =>
    rw [e, Option.some_bind] at h
    rw [List.findIdx?_eq_some_iff_getElem] at e
    obtain ⟨hk, hpk, hmin⟩ := e
    rw [List.length_reverse] at hk
    split at h
    · rename_i hdot
      have hi : i = s.length - 1 - k := by
        simpa using h.symm
      subst hi
      refine ⟨by omega, hdot, ?_⟩
      intro j hij hj
      have hj' : s.length - 1 - j < k := by omega
      have hmj := hmin (s.length - 1 - j) hj'
      rw [← List.getD_eq_getElem s.reverse ' ' (by rw [List.length_reverse]; omega)] at hmj
      rw [reverse_getD s j hj] at hmj
      simp only [Bool.or_eq_true, decide_eq_true_eq, not_or] at hmj
      exact hmj
    · simp at h

theorem extIndex_none_dot (s : List Char) (h : extIndex s = none) :
    ∀ i, i < s.length → s.getD i ' ' = '.' →
      ∃ j, i < j ∧ j < s.length ∧ s.getD j ' ' = folder_sep := by
  intro i hi hdot
  unfold extIndex at h
  cases e : s.reverse.findIdx? (fun c => c = '.' || c = folder_sep) with
  | none =>
    rw [List.findIdx?_eq_none_iff] at e
    exfalso
    have hmem : (s.getD i ' ') ∈ s.reverse := by
      rw [List.mem_reverse, List.getD_eq_getElem s ' ' hi]
      exact List.getElem_mem hi
    have hfalse := e _ hmem
    rw [hdot] at hfalse
    simp at hfalse
  | some k =>
    rw [e, Option.some_bind] at h
    rw [List.findIdx?_eq_some_iff_getElem] at e
    obtain ⟨hk, hpk, hmin⟩ := e
    rw [List.length_reverse] at hk
    split at h
    · simp at h
    · rename_i hnotdot
      -- the first dot-or-sep from the end is a separator at position length-1-k
      have hs : s.getD (s.length - 1 - k) ' ' = folder_sep := by
        have hpk' := hpk
        rw [← List.getD_eq_getElem s.reverse ' ' (by rw [List.length_reverse]; omega)] at hpk'
        have hk' : s.length - 1 - (s.length - 1 - k) = k := by omega
        have hrd := reverse_getD s (s.length - 1 - k) (by omega)
        rw [hk'] at hrd
        rw [hrd] at hpk'
        simp only [Bool.or_eq_true, decide_eq_true_eq] at hpk'
        tauto
      -- every position after it is neither dot nor sep, so the dot is before it
      have hle : i < s.length - 1 - k := by
        rcases Nat.lt_or_ge i (s.length - 1 - k) with hlt | hge
        · exact hlt
        · exfalso
          rcases Nat.eq_or_lt_of_le hge with heq | hgt
          · rw [heq] at hs
            have hcontra : ('.' : Char) = folder_sep := by rw [← hdot, hs]
            exact absurd hcontra (by decide)
          · have hj' : s.length - 1 - i < k := by omega
            have hmi := hmin (s.length - 1 - i) hj'
            rw [← List.getD_eq_getElem s.reverse ' '
              (by rw [List.length_reverse]; omega)] at hmi
            rw [reverse_getD s i hi] at hmi
            rw [hdot] at hmi
            simp at hmi
      exact ⟨s.length - 1 - k, hle, by omega, hs⟩

/-- The ten-character YYYY-MM-DD suffix body built from a calendar time. -/
def date_suffix (tm : Tm) : List Char :=
  padInt 4 (tm.tm_year + 1900) ++ '-' :: (padInt 2 (tm.tm_mon + 1) ++ '-' :: padInt 2 tm.tm_mday)

/-- daily_filename_calculator::calc_filename, daily_file_sink.h lines 32-38:
basename ++ "_" ++ YYYY-MM-DD (fmt {:04d}-{:02d}-{:02d}) ++ ext. -/
def calc_filename (filename : List Char) (now_tm : Tm) : List Char :=
  (split_by_extension filename).1 ++ '_' ::
    (date_suffix now_tm ++ (split_by_extension filename).2)

example : calc_filename "app.log".data
    { tm_sec := 0, tm_min := 0, tm_hour := 0, tm_mday := 5, tm_mon := 0, tm_year := 124 } =
    "app_2024-01-05.log".data := by decide

/-- std::string::find(pat) restricted to the test against position 0:
the first index at which pat occurs in s, none when absent. -/
def strFind (s pat : List Char) : Option Nat :=
  (List.range (s.length + 1)).find? (fun i => pat.isPrefixOf (s.drop i))

def rfindAux (s pat : List Char) : Nat → Option Nat
  | 0 => if pat.isPrefixOf s then some 0 else none
  | i + 1 => if pat.isPrefixOf (s.drop (i + 1)) then some (i + 1) else rfindAux s pat i

/-- std::string::rfind(pat): the last index at which pat occurs in s. -/
def strRfind (s pat : List Char) : Option Nat := rfindAux s pat s.length

/-- std::string lexicographic less-or-equal comparison by character value. -/
def strLe : List Char → List Char → Bool
  | [], _ => true
  | _ :: _, [] => false
  | a :: as, b :: bs =>
    if a.toNat < b.toNat then true else if b.toNat < a.toNat then false else strLe as bs

example : strFind "abcab".data "ab".data = some 0 := by decide
example : strFind "xabcab".data "ab".data = some 1 := by decide
example : strRfind "abcab".data "ab".data = some 3 := by decide
example : strRfind "abc".data "".data = some 3 := by decide
example : strLe "2024-01-01".data "2024-01-02".data = true := by decide
example : strLe "2024-01-03".data "2024-01-02".data = false := by decide

theorem isPrefixOf_eq_true_iff (l1 l2 : List Char) : l1.isPrefixOf l2 = true ↔ l1 <+: l2 :=
  List.isPrefixOf_iff_prefix

theorem isSuffixOf_eq_true_iff (l1 l2 : List Char) : l1.isSuffixOf l2 = true ↔ l1 <:+ l2 :=
  List.isSuffixOf_iff_suffix

theorem strFind_some_zero (s pat : List Char) :
    strFind s pat = some 0 ↔ pat.isPrefixOf s = true := by
  unfold strFind
  constructor
  · intro h
    have := List.find?_some h
    simpa using this
  · intro h
    rw [List.range_succ_eq_map]
    exact List.find?_cons_of_pos _ (by simpa using h)

theorem rfindAux_eq_some (s pat : List Char) :
    ∀ i k, rfindAux s pat i = some k ↔
      (k ≤ i ∧ pat.isPrefixOf (s.drop k) = true ∧
        ∀ j, k < j → j ≤ i → pat.isPrefixOf (s.drop j) = false) := by
  intro i
  induction i with
  | zero =>
    intro k
    unfold rfindAux
    split <;> rename_i hp
    · simp only [Option.some.injEq]
      constructor
      · intro h
        subst h
        exact ⟨le_refl 0, by simpa using hp, by omega⟩
      · intro ⟨h1, _, _⟩
        omega
    · constructor
      · intro h
        simp at h
      · intro ⟨h1, h2, _⟩
        have hk0 : k = 0 := by omega
        subst hk0
        rw [List.drop_zero] at h2
        exact absurd h2 hp
  | succ i ih =>
    intro k
    unfold rfindAux
    split <;> rename_i hp
    · simp only [Option.some.injEq]
      constructor
      · intro h
        subst h
        exact ⟨le_refl _, hp, by omega⟩
      · intro ⟨h1, h2, h3⟩
        rcases Nat.eq_or_lt_of_le h1 with heq | hlt
        · omega
        · exfalso
          have := h3 (i + 1) (by omega) (by omega)
          rw [hp] at this
          exact Bool.true_eq_false.mp this
    · rw [ih k]
      constructor
      · intro ⟨h1, h2, h3⟩
        refine ⟨by omega, h2, ?_⟩
        intro j hj1 hj2
        rcases Nat.eq_or_lt_of_le hj2 with heq | hlt
        · subst heq
          exact Bool.not_eq_true _ ▸ (by simpa using hp)
        · exact h3 j hj1 (by omega)
      · intro ⟨h1, h2, h3⟩
        have hk : k ≠ i + 1 := by
          intro hc
          subst hc
          rw [h2] at hp
          exact hp rfl
        exact ⟨by omega, h2, fun j hj1 hj2 => h3 j hj1 (by omega)⟩

theorem isPrefixOf_drop_length_le (s pat : List Char) (j : Nat)
    (h : pat.isPrefixOf (s.drop j) = true) : pat.length + j ≤ s.length ∨ pat = [] := by
  rcases pat with _ | ⟨a, as⟩
  · right; rfl
  · left
    have := ((isPrefixOf_eq_true_iff _ _).mp h).length_le
    rw [List.length_drop] at this
    have hj : j < s.length := by
      by_contra hc
      have : s.drop j = [] := List.drop_eq_nil_of_le (by omega)
      rw [this] at h
      simp [List.isPrefixOf] at h
    omega

theorem strRfind_eq_suffix (s pat : List Char) :
    strRfind s pat = some (s.length - pat.length) ↔ pat.isSuffixOf s = true := by
  have hspec := rfindAux_eq_some s pat s.length (s.length - pat.length)
  unfold strRfind
  rw [hspec]
  constructor
  · intro ⟨h1, h2, _⟩
    rw [isSuffixOf_eq_true_iff, List.suffix_iff_eq_drop]
    rcases isPrefixOf_drop_length_le s pat _ h2 with hle | hnil
    · -- pat occupies exactly the tail
      have hlen : (s.drop (s.length - pat.length)).length = pat.length := by
        rw [List.length_drop]
        omega
      have hpre := (isPrefixOf_eq_true_iff _ _).mp h2
      rw [List.prefix_iff_eq_take] at hpre
      rw [List.take_of_length_le (by omega)] at hpre
      exact hpre
    · subst hnil
      simp
  · intro h
    rw [isSuffixOf_eq_true_iff, List.suffix_iff_eq_drop] at h
    refine ⟨by omega, ?_, ?_⟩
    · rw [← h]
      exact (isPrefixOf_eq_true_iff _ _).mpr (List.prefix_refl _)
    · intro j hj1 hj2
      by_contra hc
      rw [Bool.not_eq_false] at hc
      rcases isPrefixOf_drop_length_le s pat _ hc with hle | hnil
      · omega
      · subst hnil
        simp at hj1
        omega

/-- The per-position separator flags of daily_file_sink.h line 213:
static constexpr int is_separator[] (0,0,0,0,1,0,0,1,0,0,0). -/
def sepFlags : List Nat := [0, 0, 0, 0, 1, 0, 0, 1, 0, 0, 0]

/-- The std::all_of walk of daily_file_sink.h lines 216-226: each character
checked against the next separator flag; a dash where the flag is set, a
digit elsewhere.  Running out of flags cannot happen on the guarded region
(at most 10 characters against 11 flags). -/
def checkRegion : List Char → List Nat → Bool
  | [], _ => true
  | _ :: _, [] => false
  | c :: cs, f :: fs => (if f ≠ 0 then c == '-' else c.isDigit) && checkRegion cs fs

theorem checkRegion_iff (r : List Char) : ∀ fl : List Nat, checkRegion r fl = true ↔
    (r.length ≤ fl.length ∧ ∀ i, i < r.length →
      ((fl.getD i 0 ≠ 0 → r.getD i ' ' = '-') ∧
        (fl.getD i 0 = 0 → (r.getD i ' ').isDigit = true))) := by
  induction r with
  | nil => intro fl; simp [checkRegion]
  | cons c cs ih =>
    intro fl
    cases fl with
    | nil =>
      simp [checkRegion]
    | cons f fs =>
      have hdef : checkRegion (c :: cs) (f :: fs) =
          ((if f ≠ 0 then c == '-' else c.isDigit) && checkRegion cs fs) := rfl
      rw [hdef, Bool.and_eq_true, ih fs]
      constructor
      · intro ⟨hhead, hlen, htail⟩
        refine ⟨by simpa using Nat.succ_le_succ hlen, ?_⟩
        intro i hi
        cases i with
        | zero =>
          simp only [List.getD_cons_zero]
          constructor
          · intro hf
            rw [if_pos hf] at hhead
            exact beq_iff_eq.mp hhead
          · intro hf
            rw [if_neg (by simp [hf])] at hhead
            exact hhead
        | succ i =>
          simp only [List.getD_cons_succ]
          exact htail i (by simpa using hi)
      · intro ⟨hlen, hall⟩
        have h0 := hall 0 (by simp)
        simp only [List.getD_cons_zero] at h0
        refine ⟨?_, by simpa using hlen, ?_⟩
        · split
          · rename_i hf
            exact beq_iff_eq.mpr (h0.1 hf)
          · rename_i hf
            exact h0.2 (by simpa using hf)
        · intro i hi
          have := hall (i + 1) (by simpa using Nat.succ_lt_succ hi)
          simpa only [List.getD_cons_succ] using this

/-- The is_daily_log lambda of daily_file_sink.h lines 208-229, with the
prefix (stem plus underscore), extension and target size precomputed from
the base name as in lines 196-206. -/
def is_daily_log (basename filename : List Char) : Bool :=
  if filename.length = basename.length + 11 ∧
      strFind filename ((split_by_extension basename).1 ++ ['_']) = some 0 ∧
      strRfind filename (split_by_extension basename).2 =
        some (filename.length - (split_by_extension basename).2.length) then
    checkRegion
      ((filename.drop ((split_by_extension basename).1 ++ ['_']).length).take
        (filename.length - (split_by_extension basename).2.length -
          ((split_by_extension basename).1 ++ ['_']).length))
      sepFlags
  else false

example : is_daily_log "app.log".data "app_2024-01-05.log".data = true := by decide
example : is_daily_log "app.log".data "app_2024-13-99.log".data = true := by decide
example : is_daily_log "app.log".data "app_2024-01-05.txt".data = false := by decide
example : is_daily_log "app.log".data "app_20x4-01-05.log".data = false := by decide
example : is_daily_log "app.log".data "other.log".data = false := by decide

/-- The structural-match characterization of is_daily_log: exact length,
stem-plus-underscore at the front, the extension at the back, and
digits everywhere in the ten-character date region except dashes at
offsets 4 and 7. -/
theorem is_daily_log_iff (base f : List Char) :
    is_daily_log base f = true ↔
      (f.length = base.length + 11 ∧
        ((split_by_extension base).1 ++ ['_']) <+: f ∧
        (split_by_extension base).2 <:+ f ∧
        ∀ i, i < 10 →
          (((i = 4 ∨ i = 7) →
              (f.drop ((split_by_extension base).1.length + 1)).getD i ' ' = '-') ∧
            (¬(i = 4 ∨ i = 7) →
              ((f.drop ((split_by_extension base).1.length + 1)).getD i ' ').isDigit = true))) := by
  have hsplit : (split_by_extension base).1.length + (split_by_extension base).2.length =
      base.length := by
    have := congrArg List.length (split_by_extension_join base)
    simpa [List.length_append] using this
  have hprelen : ((split_by_extension base).1 ++ ['_']).length =
      (split_by_extension base).1.length + 1 := by
    simp [List.length_append]
  have hflag : ∀ i, i < 10 → ((sepFlags.getD i 0 ≠ 0) ↔ (i = 4 ∨ i = 7)) := by decide
  unfold is_daily_log
  split
  · rename_i hcond
    obtain ⟨hlen, hfind, hrfind⟩ := hcond
    have hpre : ((split_by_extension base).1 ++ ['_']) <+: f :=
      (isPrefixOf_eq_true_iff _ _).mp ((strFind_some_zero _ _).mp hfind)
    have hsuf : (split_by_extension base).2 <:+ f :=
      (isSuffixOf_eq_true_iff _ _).mp ((strRfind_eq_suffix _ _).mp hrfind)
    have htk : f.length - (split_by_extension base).2.length -
        ((split_by_extension base).1 ++ ['_']).length = 10 := by
      rw [hprelen]
      omega
    rw [htk, hprelen]
    have hreglen : ((f.drop ((split_by_extension base).1.length + 1)).take 10).length = 10 := by
      rw [List.length_take, List.length_drop]
      omega
    rw [checkRegion_iff]
    have hregeq : ∀ i, i < 10 →
        ((f.drop ((split_by_extension base).1.length + 1)).take 10).getD i ' ' =
          (f.drop ((split_by_extension base).1.length + 1)).getD i ' ' := by
      intro i hi
      have h1 : i < ((f.drop ((split_by_extension base).1.length + 1)).take 10).length := by
        omega
      have h2 : i < (f.drop ((split_by_extension base).1.length + 1)).length := by
        rw [List.length_drop]
        omega
      rw [List.getD_eq_getElem _ _ h1, List.getD_eq_getElem _ _ h2]
      exact List.getElem_take _
    constructor
    · intro ⟨_, hall⟩
      refine ⟨hlen, hpre, hsuf, ?_⟩
      intro i hi
      have := hall i (by omega)
      rw [hregeq i hi] at this
      constructor
      · intro hsep
        exact this.1 ((hflag i hi).mpr hsep)
      · intro hsep
        refine this.2 ?_
        by_contra hzero
        exact hsep ((hflag i hi).mp hzero)
    · intro ⟨_, _, _, hall⟩
      refine ⟨by rw [hreglen]; decide, ?_⟩
      intro i hi
      rw [hreglen] at hi
      rw [hregeq i hi]
      have := hall i hi
      constructor
      · intro hne
        exact this.1 ((hflag i hi).mp hne)
      · intro hzero
        refine this.2 ?_
        intro hor
        exact absurd hzero ((hflag i hi).mpr hor)
  · rename_i hcond
    constructor
    · intro h
      exact absurd h (by simp)
    · intro ⟨hlen, hpre, hsuf, _⟩
      exfalso
      exact hcond ⟨hlen,
        (strFind_some_zero _ _).mpr ((isPrefixOf_eq_true_iff _ _).mpr hpre),
        (strRfind_eq_suffix _ _).mpr ((isSuffixOf_eq_true_iff _ _).mpr hsuf)⟩

/-! ## Rotation clock -/

/-- daily_file_sink::now_tm, daily_file_sink.h lines 247-251:
log_clock::to_time_t then os::localtime (both external, modelled above). -/
def now_tm (tp : Int) : Tm := localtime tp

/-- daily_file_sink::next_rotation_tp_, lines 253-266: the calendar time of
now with hour/minute/second forced to the configured schedule; if that
instant is still ahead of now return it, else add 24 hours.  The wall-clock
now (log_clock::now()) is passed explicitly. -/
def next_rotation_tp_ (rotation_h_ rotation_m_ now : Int) : Int :=
  if mktime { now_tm now with tm_hour := rotation_h_, tm_min := rotation_m_, tm_sec := 0 } >
      now then
    mktime { now_tm now with tm_hour := rotation_h_, tm_min := rotation_m_, tm_sec := 0 }
  else
    mktime { now_tm now with tm_hour := rotation_h_, tm_min := rotation_m_, tm_sec := 0 } +
      24 * 3600

/-- daily_file_sink::cutoff_tp_, lines 284-287:
current minus 24 hours times max_files_. -/
def cutoff_tp_ (max_files_ : Nat) (current : Int) : Int := current - 24 * 3600 * max_files_

theorem next_rotation_linear (rh rm now : Int) :
    next_rotation_tp_ rh rm now =
      if now / 86400 * 86400 + rh * 3600 + rm * 60 > now then
        now / 86400 * 86400 + rh * 3600 + rm * 60
      else now / 86400 * 86400 + rh * 3600 + rm * 60 + 24 * 3600 := by
  unfold next_rotation_tp_ now_tm
  rw [mktime_localtime_set]

/-! ## Filesystem, sink state and the write path -/

/-- Modelled from the spec: the filesystem behind the file handle and the
directory primitives (section 6).  files is an association list from file
name to the list of records written to it; locked models entries whose
deletion fails for lack of permission. -/
structure FS where
  files : List (List Char × List (List Char))
  locked : List (List Char)
  deriving DecidableEq, Repr

def FS.exists_ (fs : FS) (name : List Char) : Bool :=
  (fs.files.find? (fun e => e.1 == name)).isSome

def FS.contents (fs : FS) (name : List Char) : List (List Char) :=
  ((fs.files.find? (fun e => e.1 == name)).map Prod.snd).getD []

/-- Modelled from the spec: file_helper::open (section 6): create the file
when absent; truncate or keep the contents when present. -/
def FS.openFile (fs : FS) (name : List Char) (truncate : Bool) : FS :=
  if fs.exists_ name then
    if truncate then
      { fs with files := fs.files.map (fun e => if e.1 == name then (e.1, ([] : List (List Char))) else e) }
    else fs
  else { fs with files := fs.files ++ [(name, [])] }

/-- Modelled from the spec: file_helper::write (section 6): append the
formatted record to the named file. -/
def FS.write (fs : FS) (name : List Char) (payload : List Char) : FS :=
  { fs with files := fs.files.map (fun e => if e.1 == name then (e.1, e.2 ++ [payload]) else e) }

/-- Modelled from the spec: details::os::remove_if_exists (not under src/).
Sections 6 and 7 count the entry not existing, like lacking permission,
as a deletion failure; the call sites in the sink test the result against
0, so 0 is success and 1 failure. -/
def FS.remove_if_exists (fs : FS) (name : List Char) : FS × Int :=
  if fs.exists_ name = true ∧ name ∉ fs.locked then
    ({ fs with files := fs.files.filter (fun e => !(e.1 == name)) }, 0)
  else (fs, 1)

/-- The log record as seen by the sink: its timestamp and its formatted
payload (the formatter is external and deterministic, section 6, so the
payload stands for format(record)). -/
structure log_msg where
  time : Int
  payload : List Char
  deriving DecidableEq, Repr

/-- The mutable state of daily_file_sink, lines 289-295: base filename,
schedule, next rotation instant, truncate flag, retention limit, and the
name held by file_helper_. -/
structure DailySink where
  base_filename_ : List Char
  rotation_h_ : Int
  rotation_m_ : Int
  rotation_tp_ : Int
  truncate_ : Bool
  max_files_ : Nat
  current_file : List Char
  deriving DecidableEq, Repr

inductive Event where
  | opened (name : List Char) (truncate : Bool)
  | wrote (name : List Char) (payload : List Char)
  | removeTried (name : List Char) (ok : Bool)
  deriving DecidableEq, Repr

inductive Err where
  | configError
  | retentionError
  deriving DecidableEq, Repr

/-- daily_file_sink::delete_old_, lines 268-282: remove the file whose name
carries the date of current minus the retention window; the removal result
is returned for the caller to surface (nonzero means throw). -/
def delete_old_ (s : DailySink) (fs : FS) (current : Int) : FS × Int :=
  FS.remove_if_exists fs
    (calc_filename s.base_filename_ (now_tm (cutoff_tp_ s.max_files_ current)))

structure StepResult where
  sink : DailySink
  fs : FS
  rotated : Bool
  err : Option Err
  trace : List Event
  deriving DecidableEq, Repr

/-- daily_file_sink::sink_it_, lines 155-174, as explicit state passing in
source order: decide rotation by comparing the record time with the stored
instant; on rotation open the newly calculated name and recompute the
instant from the wall clock; format and write the record; finally, when a
rotation happened and a retention limit is set, run delete_old_, whose
failure surfaces as the retention error. -/
def sink_it_ (s : DailySink) (fs : FS) (msg : log_msg) (wall_now : Int) : StepResult :=
  if s.rotation_tp_ ≤ msg.time then
    let filename := calc_filename s.base_filename_ (now_tm msg.time)
    let s1 := { s with
      current_file := filename
      rotation_tp_ := next_rotation_tp_ s.rotation_h_ s.rotation_m_ wall_now }
    let fs2 := (fs.openFile filename s.truncate_).write filename msg.payload
    if 0 < s.max_files_ then
      { sink := s1, fs := (delete_old_ s1 fs2 msg.time).1, rotated := true,
        err := if (delete_old_ s1 fs2 msg.time).2 = 0 then none else some Err.retentionError,
        trace := [Event.opened filename s.truncate_, Event.wrote filename msg.payload,
          Event.removeTried
            (calc_filename s.base_filename_ (now_tm (cutoff_tp_ s.max_files_ msg.time)))
            (decide ((delete_old_ s1 fs2 msg.time).2 = 0))] }
    else
      { sink := s1, fs := fs2, rotated := true, err := none,
        trace := [Event.opened filename s.truncate_, Event.wrote filename msg.payload] }
  else
    { sink := s, fs := fs.write s.current_file msg.payload, rotated := false, err := none,
      trace := [Event.wrote s.current_file msg.payload] }

/-! ## Bulk retention prune -/

/-- The cutoff date substring of remove_obsolete_logs_, lines 231-233:
the date piece of the filename calculated for now minus the retention
window (substr(prefix size, 10)). -/
def cutoff_date_str (basename : List Char) (now : Int) (max_files_ : Nat) : List Char :=
  ((calc_filename basename (now_tm (cutoff_tp_ max_files_ now))).drop
    ((split_by_extension basename).1.length + 1)).take 10

/-- The selection made by the iterate_dir body of remove_obsolete_logs_,
lines 235-244: the entries that match is_daily_log and whose own date
substring compares at or before the cutoff date substring. -/
def prune_pass (basename : List Char) (entries : List (List Char)) (cutoff_date : List Char) :
    List (List Char) :=
  entries.filter (fun f => is_daily_log basename f &&
    strLe ((f.drop ((split_by_extension basename).1.length + 1)).take 10) cutoff_date)

/-- daily_file_sink::remove_obsolete_logs_, lines 182-245, over a given
directory listing: remove every selected entry, ignoring each removal's
result (line 241 discards it).  The folder-stripping of lines 188-203 is
elided: the model keeps base names without a directory component (path
splitting is an external primitive, section 6). -/
def remove_obsolete_logs_ (basename : List Char) (entries : List (List Char)) (now : Int)
    (max_files_ : Nat) (fs : FS) : FS :=
  (prune_pass basename entries (cutoff_date_str basename now max_files_)).foldl
    (fun a f => (a.remove_if_exists f).1) fs

structure CtorResult where
  sink : Option DailySink
  fs : FS
  err : Option Err
  trace : List Event
  deriving DecidableEq, Repr

/-- The daily_file_sink constructor, lines 123-146: reject an invalid
rotation schedule before touching any file; otherwise open the calculated
name, compute the first rotation instant, and, when a retention limit is
set, run the bulk prune over the directory contents. -/
def daily_file_sink_ctor (base_filename : List Char) (rotation_hour rotation_minute : Int)
    (truncate : Bool) (max_files : Nat) (wall_now : Int) (fs : FS) : CtorResult :=
  if rotation_hour < 0 ∨ rotation_hour > 23 ∨ rotation_minute < 0 ∨ rotation_minute > 59 then
    { sink := none, fs := fs, err := some Err.configError, trace := [] }
  else
    let filename := calc_filename base_filename (now_tm wall_now)
    let fs1 := fs.openFile filename truncate
    let s : DailySink :=
      { base_filename_ := base_filename, rotation_h_ := rotation_hour,
        rotation_m_ := rotation_minute,
        rotation_tp_ := next_rotation_tp_ rotation_hour rotation_minute wall_now,
        truncate_ := truncate, max_files_ := max_files, current_file := filename }
    if 0 < max_files then
      { sink := some s,
        fs := remove_obsolete_logs_ base_filename (fs1.files.map Prod.fst) wall_now max_files fs1,
        err := none, trace := [Event.opened filename truncate] }
    else
      { sink := some s, fs := fs1, err := none, trace := [Event.opened filename truncate] }

/-! ## Claim C1 -/

/-- Claim C1: on a write, a rotation occurs exactly when the record's
timestamp is at or past the stored rotation instant (so equality triggers
it), and a record strictly below the instant leaves the sink state, hence
the current file, unchanged. -/
theorem C1_rotation_iff (s : DailySink) (fs : FS) (msg : log_msg) (wall_now : Int) :
    ((sink_it_ s fs msg wall_now).rotated = true ↔ s.rotation_tp_ ≤ msg.time) ∧
      (msg.time < s.rotation_tp_ →
        (sink_it_ s fs msg wall_now).sink = s ∧
          (sink_it_ s fs msg wall_now).sink.current_file = s.current_file) := by
  unfold sink_it_
  by_cases h : s.rotation_tp_ ≤ msg.time
  · rw [if_pos h]
    by_cases hN : 0 < s.max_files_
    · rw [if_pos hN]
      exact ⟨⟨fun _ => h, fun _ => rfl⟩, fun hc => absurd h (by omega)⟩
    · rw [if_neg hN]
      exact ⟨⟨fun _ => h, fun _ => rfl⟩, fun hc => absurd h (by omega)⟩
  · rw [if_neg h]
    exact ⟨⟨fun hc => absurd hc Bool.false_ne_true, fun h' => absurd h' h⟩,
      fun _ => ⟨rfl, rfl⟩⟩

theorem C1_rotation_iff_witness :
    (100 : Int) < (3600 : Int) ∧
      (sink_it_ ⟨"app.log".data, 0, 0, 3600, false, 0, "app_1970-01-01.log".data⟩
          ⟨[("app_1970-01-01.log".data, [])], []⟩ ⟨100, "x".data⟩ 100).sink =
        ⟨"app.log".data, 0, 0, 3600, false, 0, "app_1970-01-01.log".data⟩ :=
  ⟨by decide,
    ((C1_rotation_iff ⟨"app.log".data, 0, 0, 3600, false, 0, "app_1970-01-01.log".data⟩
      ⟨[("app_1970-01-01.log".data, [])], []⟩ ⟨100, "x".data⟩ 100).2 (by decide)).1⟩

/-! ## Claim C2 -/

/-- Claim C2: for every valid schedule (hour 0..23, minute 0..59) and every
now, next_rotation_tp_ is the candidate instant built from now's calendar
date with the configured hour, minute and second zero when that candidate
is strictly after now, else that candidate plus exactly 24 hours, and in
either case it is strictly greater than now. -/
theorem C2_next_rotation (rh rm now : Int) (hh0 : 0 ≤ rh) (hh1 : rh ≤ 23)
    (hm0 : 0 ≤ rm) (hm1 : rm ≤ 59) :
    now < next_rotation_tp_ rh rm now ∧
      next_rotation_tp_ rh rm now =
        (if now < mktime { now_tm now with tm_hour := rh, tm_min := rm, tm_sec := 0 } then
          mktime { now_tm now with tm_hour := rh, tm_min := rm, tm_sec := 0 }
        else
          mktime { now_tm now with tm_hour := rh, tm_min := rm, tm_sec := 0 } + 24 * 3600) := by
  have hl := next_rotation_linear rh rm now
  have hm : mktime { now_tm now with tm_hour := rh, tm_min := rm, tm_sec := 0 } =
      now / 86400 * 86400 + rh * 3600 + rm * 60 := mktime_localtime_set now rh rm
  constructor
  · rw [hl]
    split <;> omega
  · rw [hl, hm]

theorem C2_next_rotation_witness :
    (0 ≤ (5 : Int) ∧ (5 : Int) ≤ 23 ∧ 0 ≤ (30 : Int) ∧ (30 : Int) ≤ 59) ∧
      (1700000000 : Int) < next_rotation_tp_ 5 30 1700000000 :=
  ⟨by decide, (C2_next_rotation 5 30 1700000000 (by decide) (by decide)
    (by decide) (by decide)).1⟩

/-! ## Claim C9 -/

/-- Claim C9: construction with the rotation hour outside 0..23 or the
rotation minute outside 0..59 fails with the configuration error before
any file is opened: the filesystem is returned untouched, the trace is
empty and no sink state is produced, so nothing is clamped into range. -/
theorem C9_invalid_ctor (base : List Char) (rh rm : Int) (tr : Bool) (N : Nat)
    (wall_now : Int) (fs : FS)
    (h : rh < 0 ∨ rh > 23 ∨ rm < 0 ∨ rm > 59) :
    daily_file_sink_ctor base rh rm tr N wall_now fs =
      { sink := none, fs := fs, err := some Err.configError, trace := [] } := by
  unfold daily_file_sink_ctor
  rw [if_pos h]

theorem C9_invalid_ctor_witness :
    ((24 : Int) < 0 ∨ (24 : Int) > 23 ∨ (0 : Int) < 0 ∨ (0 : Int) > 59) ∧
      daily_file_sink_ctor "app.log".data 24 0 false 0 0 ⟨[], []⟩ =
        { sink := none, fs := ⟨[], []⟩, err := some Err.configError, trace := [] } ∧
      daily_file_sink_ctor "app.log".data 0 60 false 0 0 ⟨[], []⟩ =
        { sink := none, fs := ⟨[], []⟩, err := some Err.configError, trace := [] } :=
  ⟨by decide, C9_invalid_ctor _ _ _ _ _ _ _ (by decide),
    C9_invalid_ctor _ _ _ _ _ _ _ (by decide)⟩

/-! ## Filesystem helper lemmas -/

theorem find?_filter_ne (l : List (List Char × List (List Char))) (name g : List Char)
    (h : g ≠ name) :
    (l.filter (fun e => !(e.1 == name))).find? (fun e => e.1 == g) =
      l.find? (fun e => e.1 == g) := by
  induction l with
  | nil => rfl
  | cons a l ih =>
    rcases a with ⟨n, c⟩
    by_cases hn : n = name
    · subst hn
      have h1 : (!(n == n)) = false := by simp
      have h2 : (n == g) = false := by
        simp only [beq_eq_false_iff_ne, ne_eq]
        intro hc
        exact h (by rw [← hc])
      rw [List.filter_cons, h1]
      simp only [Bool.false_eq_true, if_false]
      rw [List.find?_cons, h2]
      exact ih
    · have h1 : (!(n == name)) = true := by
        simp only [Bool.not_eq_true']
        simp only [beq_eq_false_iff_ne, ne_eq]
        exact hn
      rw [List.filter_cons, h1]
      simp only [if_true]
      rw [List.find?_cons, List.find?_cons]
      cases hg : ((⟨n, c⟩ : List Char × List (List Char)).1 == g) with
      | true => rfl
      | false => exact ih

theorem remove_if_exists_preserves (fs : FS) (name g : List Char) (h : g ≠ name) :
    ((fs.remove_if_exists name).1.files.find? (fun e => e.1 == g)) =
      fs.files.find? (fun e => e.1 == g) := by
  unfold FS.remove_if_exists
  split
  · exact find?_filter_ne fs.files name g h
  · rfl

theorem foldl_remove_preserves (targets : List (List Char)) :
    ∀ (fs : FS) (g : List Char), g ∉ targets →
      ((targets.foldl (fun a f => (a.remove_if_exists f).1) fs).files.find?
          (fun e => e.1 == g)) =
        fs.files.find? (fun e => e.1 == g) := by
  induction targets with
  | nil => intro fs g _; rfl
  | cons t ts ih =>
    intro fs g hg
    rw [List.foldl_cons]
    have hgt : g ≠ t := fun hc => hg (by rw [hc]; exact List.mem_cons_self t ts)
    have hgs : g ∉ ts := fun hc => hg (List.mem_cons_of_mem t hc)
    rw [ih _ g hgs]
    exact remove_if_exists_preserves fs t g hgt

/-! ## Claim C4 -/

/-- Claim C4: for any directory listing and any cutoff date string, the
bulk prune selects for deletion exactly the entries of the listing that
structurally match the date-stamped pattern (length equal to the base
name's length plus 11, the stem plus underscore in front, the expected
extension at the back, and the ten-character date region all digits apart
from dashes at offsets 4 and 7, with no calendar validation) and whose
date region compares lexicographically at or below the cutoff; an entry
outside that selection is left untouched by the deletion pass. -/
theorem C4_prune_exact (basename : List Char) (entries : List (List Char))
    (cutoff_date e : List Char) (fs : FS) :
    (e ∈ prune_pass basename entries cutoff_date ↔
      (e ∈ entries ∧
        e.length = basename.length + 11 ∧
        ((split_by_extension basename).1 ++ ['_']) <+: e ∧
        (split_by_extension basename).2 <:+ e ∧
        (∀ i, i < 10 →
          (((i = 4 ∨ i = 7) →
              (e.drop ((split_by_extension basename).1.length + 1)).getD i ' ' = '-') ∧
            (¬(i = 4 ∨ i = 7) →
              ((e.drop ((split_by_extension basename).1.length + 1)).getD i ' ').isDigit =
                true))) ∧
        strLe ((e.drop ((split_by_extension basename).1.length + 1)).take 10) cutoff_date =
          true)) ∧
      (e ∉ prune_pass basename entries cutoff_date →
        (((prune_pass basename entries cutoff_date).foldl
            (fun a f => (a.remove_if_exists f).1) fs).files.find? (fun x => x.1 == e)) =
          fs.files.find? (fun x => x.1 == e)) := by
  constructor
  · unfold prune_pass
    rw [List.mem_filter, Bool.and_eq_true, is_daily_log_iff]
    tauto
  · intro he
    exact foldl_remove_preserves _ fs e he

theorem C4_prune_exact_witness :
    "app_2020-01-01.log".data ∈
        prune_pass "app.log".data ["app_2020-01-01.log".data, "notes.txt".data]
          "2024-01-03".data ∧
      "notes.txt".data ∉
        prune_pass "app.log".data ["app_2020-01-01.log".data, "notes.txt".data]
          "2024-01-03".data ∧
      (((prune_pass "app.log".data ["app_2020-01-01.log".data, "notes.txt".data]
            "2024-01-03".data).foldl (fun (a : FS) f => (a.remove_if_exists f).1)
          ⟨[("app_2020-01-01.log".data, []), ("notes.txt".data, [])], []⟩).files.find?
          (fun x => x.1 == "notes.txt".data)) =
        (⟨[("app_2020-01-01.log".data, []), ("notes.txt".data, [])], []⟩ : FS).files.find?
          (fun x => x.1 == "notes.txt".data) :=
  ⟨by decide, by decide,
    (C4_prune_exact "app.log".data ["app_2020-01-01.log".data, "notes.txt".data]
      "2024-01-03".data "notes.txt".data
      ⟨[("app_2020-01-01.log".data, []), ("notes.txt".data, [])], []⟩).2 (by decide)⟩

/-! ## Calculator shape lemmas and claims C5 / C8 -/

theorem getD_isDigit_of_all (l : List Char) (i : Nat) (hi : i < l.length)
    (h : ∀ c ∈ l, c.isDigit = true) : (l.getD i ' ').isDigit = true := by
  rw [List.getD_eq_getElem _ _ hi]
  exact h _ (List.getElem_mem hi)

theorem calc_filename_parts (base : List Char) (tm : Tm) :
    calc_filename base tm =
      ((split_by_extension base).1 ++ ['_']) ++
        (date_suffix tm ++ (split_by_extension base).2) := by
  unfold calc_filename
  rw [List.append_assoc, List.singleton_append]

theorem date_suffix_length (tm : Tm) (hy0 : 0 ≤ tm.tm_year + 1900)
    (hy1 : tm.tm_year + 1900 ≤ 9999) (hm0 : 0 ≤ tm.tm_mon + 1) (hm1 : tm.tm_mon + 1 ≤ 99)
    (hd0 : 0 ≤ tm.tm_mday) (hd1 : tm.tm_mday ≤ 99) :
    (date_suffix tm).length = 10 := by
  unfold date_suffix
  rw [List.length_append, List.length_cons, List.length_append, List.length_cons]
  rw [padInt_length4 _ hy0 hy1, padInt_length2 _ hm0 hm1, padInt_length2 _ hd0 hd1]

theorem date_suffix_region (tm : Tm) (hy0 : 0 ≤ tm.tm_year + 1900)
    (hy1 : tm.tm_year + 1900 ≤ 9999) (hm0 : 0 ≤ tm.tm_mon + 1) (hm1 : tm.tm_mon + 1 ≤ 99)
    (hd0 : 0 ≤ tm.tm_mday) (hd1 : tm.tm_mday ≤ 99) :
    ∀ i, i < 10 →
      (((i = 4 ∨ i = 7) → (date_suffix tm).getD i ' ' = '-') ∧
        (¬(i = 4 ∨ i = 7) → ((date_suffix tm).getD i ' ').isDigit = true)) := by
  have h4 := padInt_length4 _ hy0 hy1
  have h2a := padInt_length2 _ hm0 hm1
  have h2b := padInt_length2 _ hd0 hd1
  have d4 := padInt_isDigit 4 _ hy0
  have d2a := padInt_isDigit 2 _ hm0
  have d2b := padInt_isDigit 2 _ hd0
  intro i hi
  unfold date_suffix
  by_cases hc : i < 4
  · rw [List.getD_append _ _ _ _ (by omega)]
    exact ⟨fun hsep => absurd hsep (by omega),
      fun _ => getD_isDigit_of_all _ i (by omega) d4⟩
  · rw [List.getD_append_right _ _ _ _ (by omega), h4]
    by_cases hc4 : i = 4
    · subst hc4
      rw [show 4 - 4 = 0 from rfl, List.getD_cons_zero]
      exact ⟨fun _ => rfl, fun hn => absurd (Or.inl rfl) hn⟩
    · rw [show i - 4 = (i - 5) + 1 from by omega, List.getD_cons_succ]
      by_cases hc7 : i < 7
      · rw [List.getD_append _ _ _ _ (by omega)]
        exact ⟨fun hsep => absurd hsep (by omega),
          fun _ => getD_isDigit_of_all _ _ (by omega) d2a⟩
      · rw [List.getD_append_right _ _ _ _ (by omega), h2a]
        by_cases hc7' : i = 7
        · subst hc7'
          rw [show 7 - 5 - 2 = 0 from rfl, List.getD_cons_zero]
          exact ⟨fun _ => rfl, fun hn => absurd (Or.inr rfl) hn⟩
        · rw [show i - 5 - 2 = (i - 8) + 1 from by omega, List.getD_cons_succ]
          exact ⟨fun hsep => absurd hsep (by omega),
            fun _ => getD_isDigit_of_all _ _ (by omega) d2b⟩

/-- Claim C5: the default calculator splits the base name at the last dot
that follows the last directory separator (extension empty when no such
dot exists), emits stem, underscore, the fmt-zero-padded year (1900 plus
tm_year), dash, 1-based month, dash, day, then the extension, and depends
only on the year, month and day fields, so calendar times sharing those
three fields produce the identical name. -/
theorem C5_calc_filename (base : List Char) (tm tm' : Tm) :
    (calc_filename base tm =
        (split_by_extension base).1 ++ '_' :: (date_suffix tm ++ (split_by_extension base).2) ∧
      date_suffix tm =
        padInt 4 (tm.tm_year + 1900) ++ '-' ::
          (padInt 2 (tm.tm_mon + 1) ++ '-' :: padInt 2 tm.tm_mday)) ∧
      (split_by_extension base).1 ++ (split_by_extension base).2 = base ∧
      (∀ i, extIndex base = some i →
        (split_by_extension base).1 = base.take i ∧
          (split_by_extension base).2 = base.drop i ∧
          i < base.length ∧ base.getD i ' ' = '.' ∧
          ∀ j, i < j → j < base.length →
            base.getD j ' ' ≠ '.' ∧ base.getD j ' ' ≠ folder_sep) ∧
      (extIndex base = none → (split_by_extension base).2 = []) ∧
      (tm.tm_year = tm'.tm_year → tm.tm_mon = tm'.tm_mon → tm.tm_mday = tm'.tm_mday →
        calc_filename base tm = calc_filename base tm') := by
  refine ⟨⟨rfl, rfl⟩, split_by_extension_join base, ?_, ?_, ?_⟩
  · intro i hsome
    have hspec := extIndex_spec_some base i hsome
    unfold split_by_extension
    rw [hsome]
    exact ⟨rfl, rfl, hspec.1, hspec.2.1, hspec.2.2⟩
  · intro hnone
    unfold split_by_extension
    rw [hnone]
  · intro h1 h2 h3
    unfold calc_filename date_suffix
    rw [h1, h2, h3]

theorem C5_calc_filename_witness :
    extIndex "app.log".data = some 3 ∧
      (split_by_extension "app.log".data).1 = "app.log".data.take 3 ∧
      calc_filename "app.log".data ⟨0, 0, 5, 5, 0, 124⟩ =
        calc_filename "app.log".data ⟨30, 59, 23, 5, 0, 124⟩ :=
  ⟨by decide,
    ((C5_calc_filename "app.log".data ⟨0, 0, 5, 5, 0, 124⟩ ⟨30, 59, 23, 5, 0, 124⟩).2.2.1
      3 (by decide)).1,
    (C5_calc_filename "app.log".data ⟨0, 0, 5, 5, 0, 124⟩ ⟨30, 59, 23, 5, 0, 124⟩).2.2.2.2
      rfl rfl rfl⟩

/-- Claim C8 fails as stated: a calendar time with year 10000 (tm_year
8100) produces a five-digit year, the name is one character longer than
the structural matcher's expected length, and the matcher rejects it. -/
theorem C8_roundtrip_cex :
    is_daily_log "app.log".data
      (calc_filename "app.log".data ⟨0, 0, 0, 1, 0, 8100⟩) = false := by decide

/-- Claim C8 (amended): for every base name and every calendar time whose
month and day fields are in localtime's ranges and whose year 1900 plus
tm_year lies in 0..9999, the name produced by the default calculator is
classified by the retention pruner's structural matcher as a daily log
owned by that base name. -/
theorem C8_roundtrip (base : List Char) (tm : Tm)
    (hy0 : 0 ≤ tm.tm_year + 1900) (hy1 : tm.tm_year + 1900 ≤ 9999)
    (hm0 : 0 ≤ tm.tm_mon) (hm1 : tm.tm_mon ≤ 11)
    (hd0 : 1 ≤ tm.tm_mday) (hd1 : tm.tm_mday ≤ 31) :
    is_daily_log base (calc_filename base tm) = true := by
  have hsplit : (split_by_extension base).1.length + (split_by_extension base).2.length =
      base.length := by
    have := congrArg List.length (split_by_extension_join base)
    simpa [List.length_append] using this
  have hds := date_suffix_length tm hy0 hy1 (by omega) (by omega) (by omega) (by omega)
  have hparts := calc_filename_parts base tm
  have hpl : ((split_by_extension base).1 ++ ['_']).length =
      (split_by_extension base).1.length + 1 := by
    simp [List.length_append]
  have hdrop : (calc_filename base tm).drop ((split_by_extension base).1.length + 1) =
      date_suffix tm ++ (split_by_extension base).2 := by
    rw [hparts, ← hpl, List.drop_left]
  rw [is_daily_log_iff]
  refine ⟨?_, ?_, ?_, ?_⟩
  · rw [hparts]
    simp only [List.length_append, List.length_cons, List.length_nil, hds]
    omega
  · rw [hparts]
    exact List.prefix_append _ _
  · rw [hparts, ← List.append_assoc]
    exact List.suffix_append _ _
  · intro i hi
    rw [hdrop]
    rw [List.getD_append _ _ _ _ (by omega)]
    exact date_suffix_region tm hy0 hy1 (by omega) (by omega) (by omega) (by omega) i hi

theorem C8_roundtrip_witness :
    (0 ≤ (124 : Int) + 1900 ∧ (124 : Int) + 1900 ≤ 9999 ∧ 0 ≤ (0 : Int) ∧ (0 : Int) ≤ 11 ∧
        1 ≤ (5 : Int) ∧ (5 : Int) ≤ 31) ∧
      is_daily_log "app.log".data (calc_filename "app.log".data ⟨0, 0, 0, 5, 0, 124⟩) = true :=
  ⟨by decide, C8_roundtrip "app.log".data ⟨0, 0, 0, 5, 0, 124⟩ (by decide) (by decide)
    (by decide) (by decide) (by decide) (by decide)⟩

/-! ## Write-path content lemmas and claim C6 -/

theorem find?_map_update (l : List (List Char × List (List Char))) (n : List Char)
    (f : List (List Char) → List (List Char)) :
    ((l.map (fun e => if e.1 == n then (e.1, f e.2) else e)).find? (fun e => e.1 == n)) =
      (l.find? (fun e => e.1 == n)).map (fun e => (e.1, f e.2)) := by
  induction l with
  | nil => rfl
  | cons a l ih =>
    rcases a with ⟨m, c⟩
    by_cases hm : (m == n) = true
    · simp only [List.map_cons, List.find?_cons, hm, if_true, Option.map_some]
      rfl
    · rw [Bool.not_eq_true] at hm
      simp only [List.map_cons, List.find?_cons, hm, Bool.false_eq_true, if_false]
      rw [ih]

theorem find?_append_single (l : List (List Char × List (List Char))) (n : List Char)
    (b : List (List Char)) (h : l.find? (fun e => e.1 == n) = none) :
    ((l ++ [(n, b)]).find? (fun e => e.1 == n)) = some (n, b) := by
  induction l with
  | nil =>
    simp only [List.nil_append, List.find?_cons]
    rw [show (((n, b) : List Char × List (List Char)).1 == n) = true from beq_iff_eq.mpr rfl]
  | cons a l ih =>
    rw [List.find?_cons] at h
    rw [List.cons_append, List.find?_cons]
    cases ha : (a.1 == n) with
    | true => rw [ha] at h; exact absurd h (by simp)
    | false =>
      rw [ha] at h
      exact ih h

theorem openFile_find?_isSome (fs : FS) (n : List Char) (tr : Bool) :
    (((fs.openFile n tr).files.find? (fun e => e.1 == n))).isSome = true := by
  unfold FS.openFile
  split
  · rename_i he
    split
    · show ((fs.files.map fun e =>
          if e.1 == n then (e.1, ([] : List (List Char))) else e).find?
          (fun e => e.1 == n)).isSome = true
      rw [find?_map_update fs.files n fun _ => ([] : List (List Char))]
      unfold FS.exists_ at he
      cases hf : fs.files.find? (fun e => e.1 == n) with
      | none => rw [hf] at he; simp at he
      | some a => simp
    · exact he
  · rename_i he
    show ((fs.files ++ [(n, ([] : List (List Char)))]).find? (fun e => e.1 == n)).isSome = true
    unfold FS.exists_ at he
    cases hf : fs.files.find? (fun e => e.1 == n) with
    | some a => rw [hf] at he; simp at he
    | none =>
      rw [find?_append_single fs.files n [] hf]
      rfl

theorem write_contents_mem (fs : FS) (n : List Char) (p : List Char)
    (h : ((fs.files.find? (fun e => e.1 == n))).isSome = true) :
    p ∈ (fs.write n p).contents n := by
  unfold FS.write FS.contents
  show p ∈ (((fs.files.map fun e =>
      if e.1 == n then (e.1, e.2 ++ [p]) else e).find?
      (fun e => e.1 == n)).map Prod.snd).getD []
  rw [find?_map_update fs.files n fun c => c ++ [p]]
  cases hf : fs.files.find? (fun e => e.1 == n) with
  | none => rw [hf] at h; simp at h
  | some a =>
    show p ∈ a.2 ++ [p]
    exact List.mem_append_right _ (List.mem_singleton.mpr rfl)

/-- Claim C6: whenever a write surfaces the retention error, the rotation
happened, the record was already formatted and appended to the re-opened
file (the failed removal left the filesystem as the write left it), and
the failed deletion attempt comes last in the effect order, so the
triggering record is never lost to a pruning failure. -/
theorem C6_write_before_prune (s : DailySink) (fs : FS) (msg : log_msg) (wall_now : Int)
    (herr : (sink_it_ s fs msg wall_now).err = some Err.retentionError) :
    msg.payload ∈
        (sink_it_ s fs msg wall_now).fs.contents (sink_it_ s fs msg wall_now).sink.current_file ∧
      (sink_it_ s fs msg wall_now).trace =
        [Event.opened (calc_filename s.base_filename_ (now_tm msg.time)) s.truncate_,
          Event.wrote (calc_filename s.base_filename_ (now_tm msg.time)) msg.payload,
          Event.removeTried
            (calc_filename s.base_filename_ (now_tm (cutoff_tp_ s.max_files_ msg.time))) false] := by
  unfold sink_it_ at herr ⊢
  by_cases hrot : s.rotation_tp_ ≤ msg.time
  · rw [if_pos hrot] at herr ⊢
    by_cases hN : 0 < s.max_files_
    · rw [if_pos hN] at herr ⊢
      have herr' : (if (delete_old_
          { s with
            current_file := calc_filename s.base_filename_ (now_tm msg.time)
            rotation_tp_ := next_rotation_tp_ s.rotation_h_ s.rotation_m_ wall_now }
          ((fs.openFile (calc_filename s.base_filename_ (now_tm msg.time)) s.truncate_).write
            (calc_filename s.base_filename_ (now_tm msg.time)) msg.payload) msg.time).2 = 0
          then (none : Option Err) else some Err.retentionError) = some Err.retentionError :=
        herr
      by_cases hr : (delete_old_
          { s with
            current_file := calc_filename s.base_filename_ (now_tm msg.time)
            rotation_tp_ := next_rotation_tp_ s.rotation_h_ s.rotation_m_ wall_now }
          ((fs.openFile (calc_filename s.base_filename_ (now_tm msg.time)) s.truncate_).write
            (calc_filename s.base_filename_ (now_tm msg.time)) msg.payload) msg.time).2 = 0
      · rw [if_pos hr] at herr'
        exact Option.noConfusion herr'
      · constructor
        · have hfail : (delete_old_
              { s with
                current_file := calc_filename s.base_filename_ (now_tm msg.time)
                rotation_tp_ := next_rotation_tp_ s.rotation_h_ s.rotation_m_ wall_now }
              ((fs.openFile (calc_filename s.base_filename_ (now_tm msg.time)) s.truncate_).write
                (calc_filename s.base_filename_ (now_tm msg.time)) msg.payload) msg.time).1 =
              ((fs.openFile (calc_filename s.base_filename_ (now_tm msg.time)) s.truncate_).write
                (calc_filename s.base_filename_ (now_tm msg.time)) msg.payload) := by
            unfold delete_old_ FS.remove_if_exists at hr ⊢
            split
            · rename_i hcond
              rw [if_pos hcond] at hr
              exact absurd rfl hr
            · rfl
          show msg.payload ∈ (delete_old_
              { s with
                current_file := calc_filename s.base_filename_ (now_tm msg.time)
                rotation_tp_ := next_rotation_tp_ s.rotation_h_ s.rotation_m_ wall_now }
              ((fs.openFile (calc_filename s.base_filename_ (now_tm msg.time)) s.truncate_).write
                (calc_filename s.base_filename_ (now_tm msg.time)) msg.payload)
              msg.time).1.contents (calc_filename s.base_filename_ (now_tm msg.time))
          rw [hfail]
          exact write_contents_mem _ _ _ (openFile_find?_isSome fs _ s.truncate_)
        · show [Event.opened (calc_filename s.base_filename_ (now_tm msg.time)) s.truncate_,
            Event.wrote (calc_filename s.base_filename_ (now_tm msg.time)) msg.payload,
            Event.removeTried
              (calc_filename s.base_filename_ (now_tm (cutoff_tp_ s.max_files_ msg.time)))
              (decide ((delete_old_
                { s with
                  current_file := calc_filename s.base_filename_ (now_tm msg.time)
                  rotation_tp_ := next_rotation_tp_ s.rotation_h_ s.rotation_m_ wall_now }
                ((fs.openFile (calc_filename s.base_filename_ (now_tm msg.time))
                    s.truncate_).write
                  (calc_filename s.base_filename_ (now_tm msg.time)) msg.payload)
                msg.time).2 = 0))] = _
          rw [decide_eq_false hr]
    · rw [if_neg hN] at herr
      exact Option.noConfusion herr
  · rw [if_neg hrot] at herr
    exact Option.noConfusion herr

theorem C6_write_before_prune_witness :
    ((sink_it_ ⟨"app.log".data, 0, 0, 0, false, 1, "x".data⟩ ⟨[], []⟩
        ⟨86400, "hello".data⟩ 86400).err = some Err.retentionError) ∧
      "hello".data ∈
        (sink_it_ ⟨"app.log".data, 0, 0, 0, false, 1, "x".data⟩ ⟨[], []⟩
          ⟨86400, "hello".data⟩ 86400).fs.contents
          (sink_it_ ⟨"app.log".data, 0, 0, 0, false, 1, "x".data⟩ ⟨[], []⟩
            ⟨86400, "hello".data⟩ 86400).sink.current_file :=
  ⟨by decide,
    (C6_write_before_prune ⟨"app.log".data, 0, 0, 0, false, 1, "x".data⟩ ⟨[], []⟩
      ⟨86400, "hello".data⟩ 86400 (by decide)).1⟩

/-! ## Claim C7 -/

/-- Claim C7: the two pruning modes differ in failure policy.  The
post-rotation single-file deletion reports every removal failure of its
target, a missing target included, and that nonzero result is exactly what
surfaces as the retention error of the triggering write; the bulk
directory-scan prune discards each removal result, so an entry that no
longer exists is skipped silently and the scan goes on unchanged. -/
theorem C7_failure_policy (s : DailySink) (fs : FS) (msg : log_msg) (wall_now : Int)
    (e : List Char) (rest : List (List Char)) :
    (fs.exists_ (calc_filename s.base_filename_ (now_tm (cutoff_tp_ s.max_files_ msg.time))) =
        false →
      (delete_old_ s fs msg.time).2 = 1) ∧
    (s.rotation_tp_ ≤ msg.time → 0 < s.max_files_ →
      ((sink_it_ s fs msg wall_now).err = some Err.retentionError ↔
        (delete_old_
          { s with
            current_file := calc_filename s.base_filename_ (now_tm msg.time)
            rotation_tp_ := next_rotation_tp_ s.rotation_h_ s.rotation_m_ wall_now }
          ((fs.openFile (calc_filename s.base_filename_ (now_tm msg.time)) s.truncate_).write
            (calc_filename s.base_filename_ (now_tm msg.time)) msg.payload) msg.time).2 ≠ 0)) ∧
    (fs.exists_ e = false →
      (e :: rest).foldl (fun a f => (a.remove_if_exists f).1) fs =
        rest.foldl (fun a f => (a.remove_if_exists f).1) fs) := by
  refine ⟨?_, ?_, ?_⟩
  · intro h
    unfold delete_old_ FS.remove_if_exists
    split
    · rename_i hcond
      rw [h] at hcond
      exact absurd hcond.1 Bool.false_ne_true
    · rfl
  · intro hrot hN
    unfold sink_it_
    rw [if_pos hrot, if_pos hN]
    show (if (delete_old_
        { s with
          current_file := calc_filename s.base_filename_ (now_tm msg.time)
          rotation_tp_ := next_rotation_tp_ s.rotation_h_ s.rotation_m_ wall_now }
        ((fs.openFile (calc_filename s.base_filename_ (now_tm msg.time)) s.truncate_).write
          (calc_filename s.base_filename_ (now_tm msg.time)) msg.payload) msg.time).2 = 0
        then (none : Option Err) else some Err.retentionError) = some Err.retentionError ↔ _
    by_cases hr : (delete_old_
        { s with
          current_file := calc_filename s.base_filename_ (now_tm msg.time)
          rotation_tp_ := next_rotation_tp_ s.rotation_h_ s.rotation_m_ wall_now }
        ((fs.openFile (calc_filename s.base_filename_ (now_tm msg.time)) s.truncate_).write
          (calc_filename s.base_filename_ (now_tm msg.time)) msg.payload) msg.time).2 = 0
    · rw [if_pos hr]
      constructor
      · intro hc
        exact absurd hc (by simp)
      · intro hc
        exact absurd hr hc
    · rw [if_neg hr]
      constructor
      · intro _
        exact hr
      · intro _
        rfl
  · intro h
    rw [List.foldl_cons]
    have hskip : (fs.remove_if_exists e).1 = fs := by
      unfold FS.remove_if_exists
      split
      · rename_i hcond
        rw [h] at hcond
        exact absurd hcond.1 Bool.false_ne_true
      · rfl
    rw [hskip]

theorem C7_failure_policy_witness :
    ((⟨[], []⟩ : FS).exists_
        (calc_filename "app.log".data (now_tm (cutoff_tp_ 1 86400))) = false ∧
      (⟨[], []⟩ : FS).exists_ "gone.log".data = false) ∧
      (delete_old_ ⟨"app.log".data, 0, 0, 0, false, 1, "x".data⟩ ⟨[], []⟩ 86400).2 = 1 ∧
      (["gone.log".data].foldl (fun a f => (a.remove_if_exists f).1) (⟨[], []⟩ : FS) =
        ([] : List (List Char)).foldl (fun a f => (a.remove_if_exists f).1) (⟨[], []⟩ : FS)) :=
  ⟨⟨by decide, by decide⟩,
    (C7_failure_policy ⟨"app.log".data, 0, 0, 0, false, 1, "x".data⟩ ⟨[], []⟩
      ⟨86400, "hello".data⟩ 86400 "gone.log".data []).1 (by decide),
    (C7_failure_policy ⟨"app.log".data, 0, 0, 0, false, 1, "x".data⟩ ⟨[], []⟩
      ⟨86400, "hello".data⟩ 86400 "gone.log".data []).2.2 (by decide)⟩

/-! ## Claim C3 -/

/-- Claim C3 fails as stated: with retention 1, a rotation triggered by a
record on 1970-01-05 derives the cutoff 1970-01-04, yet the owned file
app_1970-01-01.log, whose encoded date lies at or before the cutoff,
survives the write: the per-rotation step deletes only the single file
dated exactly record date minus the retention window. -/
theorem C3_retention_cex :
    (sink_it_ ⟨"app.log".data, 0, 0, 0, false, 1, "x".data⟩
        ⟨[("app_1970-01-01.log".data, [])], []⟩ ⟨86400 * 4, "r".data⟩ (86400 * 4)).rotated =
        true ∧
      is_daily_log "app.log".data "app_1970-01-01.log".data = true ∧
      strLe ((("app_1970-01-01.log".data).drop
          ((split_by_extension "app.log".data).1.length + 1)).take 10)
        (cutoff_date_str "app.log".data (86400 * 4) 1) = true ∧
      (sink_it_ ⟨"app.log".data, 0, 0, 0, false, 1, "x".data⟩
          ⟨[("app_1970-01-01.log".data, [])], []⟩ ⟨86400 * 4, "r".data⟩
          (86400 * 4)).fs.exists_ "app_1970-01-01.log".data = true := by decide

/-- Claim C3 (amended): on a rotating write with retention N greater than
zero, the cutoff instant is the record's time minus 24 hours times N, the
deletion target is the file named for the civil date exactly N days before
the record's civil day, and every other file is untouched by the deletion
step: its directory entry after the write equals its entry in the
filesystem as the open and the append left it. -/
theorem C3_retention_step (s : DailySink) (fs : FS) (msg : log_msg) (wall_now : Int)
    (hrot : s.rotation_tp_ ≤ msg.time) (hN : 0 < s.max_files_) :
    cutoff_tp_ s.max_files_ msg.time = msg.time - 24 * 3600 * s.max_files_ ∧
      (now_tm (cutoff_tp_ s.max_files_ msg.time)).tm_year =
        (civil_from_days (msg.time / 86400 - s.max_files_)).1 - 1900 ∧
      (now_tm (cutoff_tp_ s.max_files_ msg.time)).tm_mon =
        (civil_from_days (msg.time / 86400 - s.max_files_)).2.1 - 1 ∧
      (now_tm (cutoff_tp_ s.max_files_ msg.time)).tm_mday =
        (civil_from_days (msg.time / 86400 - s.max_files_)).2.2 ∧
      (∀ g, g ≠ calc_filename s.base_filename_ (now_tm (cutoff_tp_ s.max_files_ msg.time)) →
        ((sink_it_ s fs msg wall_now).fs.files.find? (fun x => x.1 == g)) =
          (((fs.openFile (calc_filename s.base_filename_ (now_tm msg.time)) s.truncate_).write
              (calc_filename s.base_filename_ (now_tm msg.time)) msg.payload).files.find?
            (fun x => x.1 == g))) := by
  have hdiv : cutoff_tp_ s.max_files_ msg.time / 86400 = msg.time / 86400 - s.max_files_ := by
    unfold cutoff_tp_
    omega
  refine ⟨rfl, ?_, ?_, ?_, ?_⟩
  · show (civil_from_days (cutoff_tp_ s.max_files_ msg.time / 86400)).1 - 1900 = _
    rw [hdiv]
  · show (civil_from_days (cutoff_tp_ s.max_files_ msg.time / 86400)).2.1 - 1 = _
    rw [hdiv]
  · show (civil_from_days (cutoff_tp_ s.max_files_ msg.time / 86400)).2.2 = _
    rw [hdiv]
  · intro g hg
    unfold sink_it_
    rw [if_pos hrot, if_pos hN]
    show ((delete_old_
        { s with
          current_file := calc_filename s.base_filename_ (now_tm msg.time)
          rotation_tp_ := next_rotation_tp_ s.rotation_h_ s.rotation_m_ wall_now }
        ((fs.openFile (calc_filename s.base_filename_ (now_tm msg.time)) s.truncate_).write
          (calc_filename s.base_filename_ (now_tm msg.time)) msg.payload)
        msg.time).1.files.find? (fun x => x.1 == g)) = _
    unfold delete_old_
    exact remove_if_exists_preserves _ _ g hg

theorem C3_retention_step_witness :
    ((0 : Int) ≤ 86400 * 4 ∧ 0 < (1 : Nat)) ∧
      (now_tm (cutoff_tp_ 1 ((⟨86400 * 4, "r".data⟩ : log_msg).time))).tm_mday =
        (civil_from_days ((⟨86400 * 4, "r".data⟩ : log_msg).time / 86400 - (1 : Nat))).2.2 :=
  ⟨by decide,
    (C3_retention_step ⟨"app.log".data, 0, 0, 0, false, 1, "x".data⟩
      ⟨[("app_1970-01-01.log".data, [])], []⟩ ⟨86400 * 4, "r".data⟩ (86400 * 4)
      (by decide) (by decide)).2.2.2.1⟩

/-! ## Claim C10 -/

/-- Claim C10 fails as stated: with the boundary at 01:00 and the stored
instant 3600 computed at wall-clock 0, a record stamped 3600 triggers a
rotation while the wall clock reads 100; the recomputed instant is again
3600, so a recomputation after a rotation did not advance the stored
instant at all. -/
theorem C10_monotone_cex :
    (sink_it_ ⟨"app.log".data, 1, 0, 3600, false, 0, "x".data⟩ ⟨[], []⟩
        ⟨3600, "r".data⟩ 100).rotated = true ∧
      (sink_it_ ⟨"app.log".data, 1, 0, 3600, false, 0, "x".data⟩ ⟨[], []⟩
        ⟨3600, "r".data⟩ 100).sink.rotation_tp_ = 3600 := by decide

/-- Claim C10 (amended): after every rotation the stored instant is
recomputed from the wall clock alone, independent of the record timestamp
that triggered the rotation; for a valid schedule the recomputed value
never decreases as the wall clock advances, it advances by exactly 24
hours when the wall clock has passed the stored instant by less than a
day, and it stays the same instant while the wall clock still sits below
the stored instant (a rotation forced early by a future-stamped record). -/
theorem C10_rotation_instant (s : DailySink) (fs : FS) (msg : log_msg)
    (wall_now rh rm w w' : Int)
    (hh0 : 0 ≤ rh) (hh1 : rh ≤ 23) (hm0 : 0 ≤ rm) (hm1 : rm ≤ 59) :
    ((sink_it_ s fs msg wall_now).rotated = true →
      (sink_it_ s fs msg wall_now).sink.rotation_tp_ =
        next_rotation_tp_ s.rotation_h_ s.rotation_m_ wall_now) ∧
      (w ≤ w' → next_rotation_tp_ rh rm w ≤ next_rotation_tp_ rh rm w') ∧
      (next_rotation_tp_ rh rm w ≤ w' → w' < next_rotation_tp_ rh rm w + 24 * 3600 →
        next_rotation_tp_ rh rm w' = next_rotation_tp_ rh rm w + 24 * 3600) ∧
      (w ≤ w' → w' < next_rotation_tp_ rh rm w →
        next_rotation_tp_ rh rm w' = next_rotation_tp_ rh rm w) := by
  refine ⟨?_, ?_, ?_, ?_⟩
  · intro hrot
    unfold sink_it_ at hrot ⊢
    by_cases h : s.rotation_tp_ ≤ msg.time
    · rw [if_pos h] at hrot ⊢
      by_cases hN : 0 < s.max_files_
      · rw [if_pos hN]
      · rw [if_neg hN]
    · rw [if_neg h] at hrot
      exact absurd hrot Bool.false_ne_true
  · intro hw
    rw [next_rotation_linear rh rm w, next_rotation_linear rh rm w']
    split_ifs <;> omega
  · intro h1 h2
    rw [next_rotation_linear rh rm w] at h1 h2 ⊢
    rw [next_rotation_linear rh rm w']
    split_ifs at h1 h2 ⊢ <;> omega
  · intro hw h1
    rw [next_rotation_linear rh rm w] at h1 ⊢
    rw [next_rotation_linear rh rm w']
    split_ifs at h1 ⊢ <;> omega

theorem C10_rotation_instant_witness :
    ((0 : Int) ≤ 1 ∧ (1 : Int) ≤ 23 ∧ (0 : Int) ≤ 0 ∧ (0 : Int) ≤ 59 ∧
        (sink_it_ ⟨"app.log".data, 1, 0, 3600, false, 0, "x".data⟩ ⟨[], []⟩
          ⟨3600, "r".data⟩ 100).rotated = true) ∧
      (sink_it_ ⟨"app.log".data, 1, 0, 3600, false, 0, "x".data⟩ ⟨[], []⟩
          ⟨3600, "r".data⟩ 100).sink.rotation_tp_ = next_rotation_tp_ 1 0 100 :=
  ⟨by decide,
    (C10_rotation_instant ⟨"app.log".data, 1, 0, 3600, false, 0, "x".data⟩ ⟨[], []⟩
      ⟨3600, "r".data⟩ 100 1 0 0 0 (by decide) (by decide) (by decide) (by decide)).1
      (by decide)⟩
